import Mathlib

/-!
Verification of the numerical core of the Markov-chain visualizer
(`src/js/app.js`).  JavaScript numbers are modelled as exact rationals
(`ℚ`); the floating-point literals `1e-9`, `1e-10`, `1e-12` become the
corresponding exact rationals.  Out-of-bounds array reads are modelled
with `List.getD _ _ 0` / `List.getD _ _ []`; all claims that depend on
indexing carry the lock-step shape hypotheses the data model guarantees.
-/

namespace MarkovChain

/-- Source: `normalizeRow(row)` in `app.js`.  Divides each entry by the
row sum; if the sum is ≤ 0, returns an all-zero row of the same shape. -/
def normalizeRow (row : List ℚ) : List ℚ :=
  let s := row.sum
  if s ≤ 0 then row.map (fun _ => 0)
  else row.map (fun x => x / s)

/-- Source: `normalizeVector(v)` in `app.js` (same body as `normalizeRow`). -/
def normalizeVector (v : List ℚ) : List ℚ :=
  let s := v.sum
  if s ≤ 0 then v.map (fun _ => 0)
  else v.map (fun x => x / s)

/-- Source: `multRowVecMat(p, P)` in `app.js`:
`r[j] = Σ_k p[k] * P[k][j]` for `j, k` ranging over `0 .. P.length - 1`. -/
def multRowVecMat (p : List ℚ) (P : List (List ℚ)) : List ℚ :=
  let n := P.length
  (List.range n).map (fun j =>
    ((List.range n).map (fun k => p.getD k 0 * (P.getD k []).getD j 0)).sum)

/-- Source: `l1(a,b)` in `app.js`: `Σ_{i < a.length} |a[i] - b[i]|`. -/
def l1 (a b : List ℚ) : ℚ :=
  ((List.range a.length).map (fun i => |a.getD i 0 - b.getD i 0|)).sum

/-- Source: `isRowStochastic(P, tol=1e-9)` in `app.js`.  A row fails if it
has an entry below `-1e-12` or its sum differs from 1 by more than `tol`. -/
def isRowStochastic (P : List (List ℚ)) (tol : ℚ := 1/1000000000) : Bool :=
  P.all (fun row =>
    !(row.any (fun x => decide (x < -(1/1000000000000)))) &&
      decide (|row.sum - 1| ≤ tol))

/-- Source: `absorbingStates(P, tol=1e-12)` in `app.js`: the indices `i`
whose row is the `i`-th standard basis vector within `tol`. -/
def absorbingStates (P : List (List ℚ)) (tol : ℚ := 1/1000000000000) :
    List ℕ :=
  let n := P.length
  (List.range n).filter (fun i =>
    (List.range n).all (fun j =>
      decide (|(P.getD i []).getD j 0 - (if i = j then 1 else 0)| ≤ tol)))

/-- The loop body of `stationaryDistribution`, with the remaining
iteration count made explicit as fuel. -/
def stationaryLoop (P : List (List ℚ)) (tol : ℚ) :
    ℕ → List ℚ → List ℚ
  | 0, pi => pi
  | fuel + 1, pi =>
    let next := multRowVecMat pi P
    if l1 next pi < tol then next
    else stationaryLoop P tol fuel next

/-- Source: `stationaryDistribution(P, tol=1e-10, maxIter=20000)` in
`app.js`: power iteration from the uniform vector. -/
def stationaryDistribution (P : List (List ℚ)) (tol : ℚ := 1/10000000000)
    (maxIter : ℕ := 20000) : List ℚ :=
  let n := P.length
  stationaryLoop P tol maxIter (List.replicate n (1 / (n : ℚ)))

/-- One power-method step: propagate a distribution through `P`
(`multRowVecMat` with the arguments flipped, shaped for
`Function.iterate`). -/
def powerStep (P : List (List ℚ)) (v : List ℚ) : List ℚ := multRowVecMat v P

/-- Source: `Array(n).fill(1/n)` in `stationaryDistribution`: the uniform
vector the power iteration starts from. -/
def uniformVec (n : ℕ) : List ℚ := List.replicate n (1 / (n : ℚ))

/-- The simulation session: the transition matrix `state.P`, the current
distribution `state.p` and the step counter `state.stepIdx` of `app.js`.
(The DOM-sync and charting parts of `stepOnce` are presentation-layer
glue and are out of scope.) -/
structure Session where
  P : List (List ℚ)
  p : List ℚ
  stepIdx : ℕ
deriving DecidableEq, Repr

/-- Outcome reported by an operation that validates the matrix first. -/
inductive StepResult where
  | ok
  | invalidMatrix
deriving DecidableEq, Repr

/-- Source: `stepOnce()` in `app.js`: validate `P`; on failure warn and
change nothing; on success increment `stepIdx` and set `p = p · P`. -/
def stepOnce (s : Session) : Session × StepResult :=
  if isRowStochastic s.P then
    ({ s with stepIdx := s.stepIdx + 1, p := multRowVecMat s.p s.P },
      StepResult.ok)
  else (s, StepResult.invalidMatrix)

/-- Source: `onComputeStationary()` in `app.js`: validate `P`; on failure
warn and change nothing; on success compute the stationary vector (the
session itself is never mutated). -/
def onComputeStationary (s : Session) :
    Session × Option (List ℚ) :=
  if isRowStochastic s.P then (s, some (stationaryDistribution s.P))
  else (s, none)

/-- The lock-step configuration: `state.labels`, `state.P`, `state.p0`
of `app.js`. -/
structure Config where
  labels : List String
  P : List (List ℚ)
  p0 : List ℚ
deriving DecidableEq, Repr

/-- Source: `addState()` in `app.js`: append a label, a `0` to every row,
a fresh all-zero row, set its diagonal cell to 1, append `0` to `p0`. -/
def addState (c : Config) : Config :=
  let n := c.labels.length
  let P1 := c.P.map (fun row => row ++ [0]) ++ [List.replicate (n + 1) 0]
  let P2 := P1.set n ((P1.getD n []).set n 1)
  { labels := c.labels ++ ["State " ++ toString (n + 1)]
    P := P2
    p0 := c.p0 ++ [0] }

/-- Source: `removeState()` in `app.js`: refuse when `n ≤ 1`; otherwise
drop the last label, the last row, the last column and the last `p0`
entry. -/
def removeState (c : Config) : Config :=
  if c.labels.length ≤ 1 then c
  else
    { labels := c.labels.dropLast
      P := (c.P.dropLast).map (fun row => row.dropLast)
      p0 := c.p0.dropLast }

/-- The lock-step shape invariant of the data model: `labels`, `p0`, the
matrix row count and every row length all equal one `n ≥ 1`. -/
def shapeInvariant (c : Config) : Prop :=
  c.P.length = c.labels.length ∧
    (∀ row ∈ c.P, row.length = c.labels.length) ∧
    c.p0.length = c.labels.length ∧ 1 ≤ c.labels.length

/-- Events driving the cooperative run loop of `app.js`: a scheduled
timer tick, or a cancellation (`pause()` clearing `state.running`). -/
inductive RunEvent where
  | tick
  | cancel
deriving DecidableEq, Repr

/-- One event of the run loop (`run()` / `pause()` in `app.js`).  The
boolean is `state.running`.  `tick` checks the flag first and does
nothing when it is cleared; otherwise it performs `stepOnce` and clears
the flag once `maxSteps` is reached.  `cancel` clears the flag. -/
def applyRunEvent (maxSteps : ℕ) (rs : Session × Bool) (e : RunEvent) :
    Session × Bool :=
  match e with
  | RunEvent.tick =>
    if rs.2 then
      let s := (stepOnce rs.1).1
      if maxSteps ≤ s.stepIdx then (s, false) else (s, true)
    else rs
  | RunEvent.cancel => (rs.1, false)

/-- Folding a whole event sequence through the run loop. -/
def runEvents (maxSteps : ℕ) (rs : Session × Bool) (evs : List RunEvent) :
    Session × Bool :=
  evs.foldl (applyRunEvent maxSteps) rs

/-- The n×n identity matrix (the "custom" preset generalized to any n). -/
def identityMatrix (n : ℕ) : List (List ℚ) :=
  (List.range n).map (fun i =>
    (List.range n).map (fun j => if i = j then 1 else 0))

/-- The "weather" preset matrix `[[0.8,0.2],[0.4,0.6]]`. -/
def weatherP : List (List ℚ) := [[4/5, 1/5], [2/5, 3/5]]

/-- The "absorbing" preset matrix `[[0.85,0.10,0.05],[0,1,0],[0,0,1]]`. -/
def absorbingP : List (List ℚ) :=
  [[17/20, 1/10, 1/20], [0, 1, 0], [0, 0, 1]]

/-! ### Helper lemmas -/

/-- The sum of a list written as a `Finset.range` sum over `getD` lookups. -/
lemma sum_eq_sum_range_getD (l : List ℚ) :
    l.sum = ∑ j ∈ Finset.range l.length, l.getD j 0 := by
  induction l with
  | nil => simp
  | cons a t ih =>
    rw [List.sum_cons, List.length_cons, Finset.sum_range_succ', ih]
    simp [add_comm]

/-- Summing a function over `List.range` agrees with the `Finset.range`
sum. -/
lemma sum_map_range (f : ℕ → ℚ) (n : ℕ) :
    ((List.range n).map f).sum = ∑ j ∈ Finset.range n, f j := by
  induction n with
  | zero => simp
  | succ m ih => rw [List.range_succ, Finset.sum_range_succ]; simp [ih]

/-- `isRowStochastic` succeeds exactly when every row is entrywise above
`-1e-12` and sums to 1 within `tol`. -/
lemma isRowStochastic_iff (P : List (List ℚ)) (tol : ℚ) :
    isRowStochastic P tol = true ↔
      ∀ row ∈ P, (∀ x ∈ row, -(1/1000000000000) ≤ x) ∧
        |row.sum - 1| ≤ tol := by
  simp only [isRowStochastic, List.all_eq_true, Bool.and_eq_true,
    Bool.not_eq_true', List.any_eq_false, decide_eq_true_eq,
    decide_eq_false_iff_not, not_lt]

/-- The weather preset passes the row-stochastic check. -/
lemma isRowStochastic_weatherP : isRowStochastic weatherP = true := by
  rw [isRowStochastic_iff]
  intro row hrow
  simp only [weatherP, List.mem_cons, List.not_mem_nil, or_false] at hrow
  rcases hrow with h | h <;> subst h <;> refine ⟨?_, ?_⟩ <;>
    norm_num [abs_le]

/-- On a matrix passing the row-stochastic check, `stepOnce` multiplies
the distribution by the matrix and increments the counter. -/
lemma stepOnce_of_valid (s : Session) (hs : isRowStochastic s.P = true) :
    stepOnce s =
      ({ s with p := multRowVecMat s.p s.P, stepIdx := s.stepIdx + 1 },
        StepResult.ok) := by
  simp only [stepOnce]
  rw [hs]
  simp

/-- On a matrix failing the row-stochastic check, `stepOnce` reports the
error and returns the session unchanged. -/
lemma stepOnce_of_invalid (s : Session)
    (hs : isRowStochastic s.P = false) :
    stepOnce s = (s, StepResult.invalidMatrix) := by
  simp only [stepOnce]
  rw [hs]
  simp

/-- On a matrix failing the row-stochastic check, `onComputeStationary`
reports the error and returns the session unchanged. -/
lemma onComputeStationary_of_invalid (s : Session)
    (hs : isRowStochastic s.P = false) :
    onComputeStationary s = (s, none) := by
  simp only [onComputeStationary]
  rw [hs]
  simp

/-- First step of the weather scenario:
`[1,0] · P = [0.8, 0.2]`. -/
lemma weather_first_step : multRowVecMat [1, 0] weatherP = [4/5, 1/5] := by
  simp [multRowVecMat, weatherP, List.range_succ]
  try norm_num

/-- Second step of the weather scenario:
`[0.8,0.2] · P = [0.72, 0.28]`. -/
lemma weather_second_step :
    multRowVecMat [4/5, 1/5] weatherP = [18/25, 7/25] := by
  simp [multRowVecMat, weatherP, List.range_succ]
  try norm_num

/-- Third step of the weather scenario:
`[0.72,0.28] · P = [0.688, 0.312]`. -/
lemma weather_third_step :
    multRowVecMat [18/25, 7/25] weatherP = [86/125, 39/125] := by
  simp [multRowVecMat, weatherP, List.range_succ]
  try norm_num

/-- `stepOnce` on the freshly reset weather session. -/
lemma weather_session_step1 :
    stepOnce ⟨weatherP, [1, 0], 0⟩ =
      (⟨weatherP, [4/5, 1/5], 1⟩, StepResult.ok) := by
  rw [stepOnce_of_valid ⟨weatherP, [1, 0], 0⟩ isRowStochastic_weatherP,
    weather_first_step]

/-- `stepOnce` on the weather session after one step. -/
lemma weather_session_step2 :
    stepOnce ⟨weatherP, [4/5, 1/5], 1⟩ =
      (⟨weatherP, [18/25, 7/25], 2⟩, StepResult.ok) := by
  rw [stepOnce_of_valid ⟨weatherP, [4/5, 1/5], 1⟩ isRowStochastic_weatherP,
    weather_second_step]

/-- `stepOnce` on the weather session after two steps. -/
lemma weather_session_step3 :
    stepOnce ⟨weatherP, [18/25, 7/25], 2⟩ =
      (⟨weatherP, [86/125, 39/125], 3⟩, StepResult.ok) := by
  rw [stepOnce_of_valid ⟨weatherP, [18/25, 7/25], 2⟩ isRowStochastic_weatherP,
    weather_third_step]

/-- Dividing every entry of a list divides its sum. -/
lemma sum_map_div (l : List ℚ) (s : ℚ) :
    (l.map (fun x => x / s)).sum = l.sum / s := by
  induction l with
  | nil => simp
  | cons a t ih => simp [ih, add_div]

/-- `getD` after mapping a division, with the same default `0`. -/
lemma getD_map_div (l : List ℚ) (s : ℚ) (i : ℕ) :
    (l.map (fun x => x / s)).getD i 0 = l.getD i 0 / s := by
  by_cases h : i < l.length
  · rw [List.getD_eq_getElem _ _ (by simpa using h),
      List.getD_eq_getElem _ _ h, List.getElem_map]
  · rw [List.getD_eq_default _ _ (by simpa using not_lt.mp h),
      List.getD_eq_default _ _ (not_lt.mp h), zero_div]

/-- On a positive-sum row, `normalizeRow` is entrywise division by the
sum. -/
lemma normalizeRow_of_pos (row : List ℚ) (h : 0 < row.sum) :
    normalizeRow row = row.map (fun x => x / row.sum) := by
  simp only [normalizeRow]
  rw [if_neg (not_le.mpr h)]

/-- The `i`-th row of `identityMatrix n`, for `i < n`. -/
lemma identityMatrix_row (n i : ℕ) (hi : i < n) :
    (identityMatrix n).getD i [] =
      (List.range n).map (fun j => if i = j then (1 : ℚ) else 0) := by
  rw [List.getD_eq_getElem _ _ (by simpa [identityMatrix] using hi)]
  simp [identityMatrix]

/-- `getD` at the position of an appended last element. -/
lemma getD_append_last {α : Type} (l : List α) (b d : α) (n : ℕ)
    (h : l.length = n) : (l ++ [b]).getD n d = b := by
  subst h
  rw [List.getD_append_right l [b] d l.length le_rfl]
  simp

/-- `set` at the position of an appended last element replaces it. -/
lemma set_append_last {α : Type} (l : List α) (b x : α) (n : ℕ)
    (h : l.length = n) : (l ++ [b]).set n x = l ++ [x] := by
  subst h
  induction l with
  | nil => rfl
  | cons a t ih => simp [ih]

/-- Setting the last entry of an all-zero row to 1 yields the standard
basis row. -/
lemma replicate_set_last (n : ℕ) :
    (List.replicate (n + 1) (0 : ℚ)).set n 1 =
      List.replicate n 0 ++ [1] := by
  induction n with
  | zero => rfl
  | succ m ih =>
    rw [List.replicate_succ, List.set_cons_succ, ih, List.replicate_succ,
      List.cons_append]

/-- Under the row-count equation of the lock-step invariant, `addState`
extends each row with a 0 and appends the standard basis row. -/
lemma addState_P_eq (c : Config) (hP : c.P.length = c.labels.length) :
    (addState c).P = c.P.map (fun row => row ++ [0]) ++
      [List.replicate c.labels.length 0 ++ [1]] := by
  have hlen : (c.P.map (fun row => row ++ ([0] : List ℚ))).length =
      c.labels.length := by simp [hP]
  show (c.P.map (fun row => row ++ [0]) ++
      [List.replicate (c.labels.length + 1) 0]).set c.labels.length
      (((c.P.map (fun row => row ++ [0]) ++
        [List.replicate (c.labels.length + 1) 0]).getD c.labels.length
          []).set c.labels.length 1) = _
  rw [getD_append_last _ _ _ _ hlen, set_append_last _ _ _ _ hlen,
    replicate_set_last]

/-- The weather preset configuration satisfies the lock-step shape
invariant. -/
lemma shapeInvariant_weatherConfig :
    shapeInvariant ⟨["Sunny", "Rainy"], weatherP, [1, 0]⟩ := by
  refine ⟨rfl, ?_, rfl, by norm_num⟩
  intro row hrow
  simp only [weatherP, List.mem_cons, List.not_mem_nil, or_false] at hrow
  rcases hrow with h | h <;> subst h <;> rfl

/-! ### Claim theorems -/

/-- C1.  When the matrix passes the row-stochastic check, one `stepOnce`
replaces `p` by `p · P` and increments the step counter by exactly 1; in
the weather scenario (`p0 = [1,0]`, `P = [[0.8,0.2],[0.4,0.6]]`) the
first step yields `[0.8, 0.2]` and the second `[0.72, 0.28]`. -/
theorem stepOnce_valid_spec :
    (∀ s : Session, isRowStochastic s.P = true →
        stepOnce s =
          ({ s with p := multRowVecMat s.p s.P, stepIdx := s.stepIdx + 1 },
            StepResult.ok)) ∧
      (stepOnce ⟨weatherP, [1, 0], 0⟩).1.p = [4/5, 1/5] ∧
      (stepOnce (stepOnce ⟨weatherP, [1, 0], 0⟩).1).1.p = [18/25, 7/25] ∧
      (stepOnce (stepOnce ⟨weatherP, [1, 0], 0⟩).1).1.stepIdx = 2 := by
  refine ⟨fun s hs => stepOnce_of_valid s hs, ?_, ?_, ?_⟩ <;>
    rw [weather_session_step1] <;> rw [weather_session_step2]

/-- C1 witness: the weather session satisfies the hypothesis and the
theorem computes its first step. -/
theorem stepOnce_valid_spec_witness :
    isRowStochastic (Session.P ⟨weatherP, [1, 0], 0⟩) = true ∧
      stepOnce ⟨weatherP, [1, 0], 0⟩ =
        (⟨weatherP, multRowVecMat [1, 0] weatherP, 1⟩, StepResult.ok) :=
  ⟨isRowStochastic_weatherP,
    stepOnce_valid_spec.1 ⟨weatherP, [1, 0], 0⟩ isRowStochastic_weatherP⟩

/-- C2.  When the matrix fails the row-stochastic check, `stepOnce` and
`onComputeStationary` both report the invalid-matrix condition and leave
the session (distribution and step counter) unchanged; in particular the
matrix `[[0.5,0.6],[0.4,0.6]]` fails the check. -/
theorem invalid_matrix_spec :
    (∀ s : Session, isRowStochastic s.P = false →
        stepOnce s = (s, StepResult.invalidMatrix) ∧
          onComputeStationary s = (s, none)) ∧
      isRowStochastic [[1/2, 3/5], [2/5, 3/5]] = false := by
  constructor
  · intro s hs
    exact ⟨stepOnce_of_invalid s hs, onComputeStationary_of_invalid s hs⟩
  · simp [isRowStochastic]
    norm_num [lt_abs]

/-- C2 witness: a session holding the invalid matrix is left untouched
by both operations. -/
theorem invalid_matrix_spec_witness :
    isRowStochastic (Session.P ⟨[[1/2, 3/5], [2/5, 3/5]], [1, 0], 5⟩) = false ∧
      stepOnce ⟨[[1/2, 3/5], [2/5, 3/5]], [1, 0], 5⟩ =
        (⟨[[1/2, 3/5], [2/5, 3/5]], [1, 0], 5⟩, StepResult.invalidMatrix) ∧
      onComputeStationary ⟨[[1/2, 3/5], [2/5, 3/5]], [1, 0], 5⟩ =
        (⟨[[1/2, 3/5], [2/5, 3/5]], [1, 0], 5⟩, none) :=
  ⟨invalid_matrix_spec.2,
    invalid_matrix_spec.1 ⟨[[1/2, 3/5], [2/5, 3/5]], [1, 0], 5⟩
      invalid_matrix_spec.2⟩

/-- C9.  Once the running flag is cleared, no event ever changes the
session again (no steps execute); a run with `maxSteps = 2000` cancelled
after the 3rd tick has recorded exactly 3 steps, and stays at 3 steps
under any further events. -/
theorem run_cancellation_spec :
    (∀ (maxSteps : ℕ) (s : Session) (evs : List RunEvent),
        runEvents maxSteps (s, false) evs = (s, false)) ∧
      (runEvents 2000 (⟨weatherP, [1, 0], 0⟩, true)
          [RunEvent.tick, RunEvent.tick, RunEvent.tick,
            RunEvent.cancel]).1.stepIdx = 3 ∧
      ∀ evs : List RunEvent,
        runEvents 2000
            (runEvents 2000 (⟨weatherP, [1, 0], 0⟩, true)
              [RunEvent.tick, RunEvent.tick, RunEvent.tick, RunEvent.cancel])
            evs =
          runEvents 2000 (⟨weatherP, [1, 0], 0⟩, true)
            [RunEvent.tick, RunEvent.tick, RunEvent.tick, RunEvent.cancel] := by
  have hfrozen : ∀ (maxSteps : ℕ) (s : Session) (evs : List RunEvent),
      runEvents maxSteps (s, false) evs = (s, false) := by
    intro maxSteps s evs
    induction evs with
    | nil => rfl
    | cons e t ih =>
      cases e <;>
        simpa [runEvents, applyRunEvent] using ih
  have a1 : applyRunEvent 2000 (⟨weatherP, [1, 0], 0⟩, true) RunEvent.tick =
      (⟨weatherP, [4/5, 1/5], 1⟩, true) := by
    simp only [applyRunEvent]
    rw [weather_session_step1]
    simp
  have a2 : applyRunEvent 2000 (⟨weatherP, [4/5, 1/5], 1⟩, true)
      RunEvent.tick = (⟨weatherP, [18/25, 7/25], 2⟩, true) := by
    simp only [applyRunEvent]
    rw [weather_session_step2]
    simp
  have a3 : applyRunEvent 2000 (⟨weatherP, [18/25, 7/25], 2⟩, true)
      RunEvent.tick = (⟨weatherP, [86/125, 39/125], 3⟩, true) := by
    simp only [applyRunEvent]
    rw [weather_session_step3]
    simp
  have hthree : runEvents 2000 (⟨weatherP, [1, 0], 0⟩, true)
      [RunEvent.tick, RunEvent.tick, RunEvent.tick, RunEvent.cancel] =
      (⟨weatherP, [86/125, 39/125], 3⟩, false) := by
    simp only [runEvents, List.foldl]
    rw [a1, a2, a3]
    simp [applyRunEvent]
  refine ⟨hfrozen, ?_, ?_⟩
  · rw [hthree]
  · intro evs
    rw [hthree, hfrozen]

/-- C3.  For a non-negative distribution `p` summing to 1 and a matrix
whose rows each sum exactly to 1 (all in lock-step shape), one
propagation step conserves total probability mass:
`Σ multRowVecMat p P = Σ p`. -/
theorem mass_conservation_spec (p : List ℚ) (P : List (List ℚ))
    (hlen : p.length = P.length)
    (hrows : ∀ row ∈ P, row.length = P.length)
    (hnn : ∀ x ∈ p, 0 ≤ x) (hsum : p.sum = 1)
    (hstoch : ∀ row ∈ P, row.sum = 1) :
    (multRowVecMat p P).sum = p.sum := by
  have hexp : (multRowVecMat p P).sum =
      ∑ j ∈ Finset.range P.length, ∑ k ∈ Finset.range P.length,
        p.getD k 0 * (P.getD k []).getD j 0 := by
    simp only [multRowVecMat]
    rw [sum_map_range]
    exact Finset.sum_congr rfl (fun j _ => sum_map_range _ _)
  rw [hexp, Finset.sum_comm]
  have hrow : ∀ k ∈ Finset.range P.length,
      ∑ j ∈ Finset.range P.length, p.getD k 0 * (P.getD k []).getD j 0 =
        p.getD k 0 := by
    intro k hk
    have hkP : k < P.length := Finset.mem_range.mp hk
    have hmem : P.getD k [] ∈ P := by
      rw [List.getD_eq_getElem _ _ hkP]
      exact List.getElem_mem hkP
    rw [← Finset.mul_sum, ← hrows _ hmem, ← sum_eq_sum_range_getD,
      hstoch _ hmem, mul_one]
  rw [Finset.sum_congr rfl hrow, ← hlen, ← sum_eq_sum_range_getD]

/-- C3 witness: the uniform 2-state distribution and the weather
matrix satisfy all the hypotheses, and mass is conserved there. -/
theorem mass_conservation_spec_witness :
    ([1/2, 1/2] : List ℚ).length = weatherP.length ∧
      (multRowVecMat [1/2, 1/2] weatherP).sum = ([1/2, 1/2] : List ℚ).sum :=
  ⟨by simp [weatherP],
    mass_conservation_spec [1/2, 1/2] weatherP (by simp [weatherP])
      (by intro row hrow
          simp only [weatherP, List.mem_cons, List.not_mem_nil,
            or_false] at hrow
          rcases hrow with h | h <;> subst h <;> simp [weatherP])
      (by intro x hx
          simp only [List.mem_cons, List.not_mem_nil, or_false] at hx
          rcases hx with h | h <;> subst h <;> norm_num)
      (by norm_num)
      (by intro row hrow
          simp only [weatherP, List.mem_cons, List.not_mem_nil,
            or_false] at hrow
          rcases hrow with h | h <;> subst h <;> norm_num)⟩

/-- C5.  `isRowStochastic` returns `false` exactly when some row has an
entry below `-1e-12` or a sum differing from 1 by more than `tol`; it is
a pure function, so two calls on the same input agree. -/
theorem isRowStochastic_false_iff :
    (∀ (P : List (List ℚ)) (tol : ℚ),
        isRowStochastic P tol = false ↔
          ∃ row ∈ P, (∃ x ∈ row, x < -(1/1000000000000)) ∨
            tol < |row.sum - 1|) ∧
      ∀ (P : List (List ℚ)) (tol : ℚ),
        isRowStochastic P tol = isRowStochastic P tol := by
  refine ⟨fun P tol => ?_, fun P tol => rfl⟩
  rw [Bool.eq_false_iff, ne_eq, isRowStochastic_iff]
  simp only [not_forall, not_and_or, not_le, exists_prop]

/-- C6.  An index `i < n` is reported absorbing exactly when row `i`
matches the `i`-th standard basis vector within `1e-12`; the identity
matrix yields all indices, and the absorbing preset yields `[1, 2]`. -/
theorem absorbingStates_spec :
    (∀ (P : List (List ℚ)) (i : ℕ), i < P.length →
        (i ∈ absorbingStates P ↔
          ∀ j < P.length,
            |(P.getD i []).getD j 0 - (if i = j then 1 else 0)| ≤
              1/1000000000000)) ∧
      (∀ n : ℕ, absorbingStates (identityMatrix n) = List.range n) ∧
      absorbingStates absorbingP = [1, 2] := by
  refine ⟨?_, ?_, ?_⟩
  · intro P i hi
    simp only [absorbingStates, List.mem_filter, List.mem_range,
      List.all_eq_true, decide_eq_true_eq]
    constructor
    · rintro ⟨-, h⟩
      exact h
    · intro h
      exact ⟨hi, h⟩
  · intro n
    have hlen : (identityMatrix n).length = n := by simp [identityMatrix]
    simp only [absorbingStates, hlen]
    rw [List.filter_eq_self]
    intro i hi
    have hin : i < n := List.mem_range.mp hi
    rw [List.all_eq_true]
    intro j hj
    have hjn : j < n := List.mem_range.mp hj
    rw [identityMatrix_row n i hin, decide_eq_true_eq,
      List.getD_eq_getElem _ _ (by simpa using hjn)]
    simp
  · simp [absorbingStates, absorbingP, List.range_succ, List.filter_cons,
      Bool.and_eq_true, decide_eq_true_eq]
    norm_num [abs_le]

/-- C6 witness: index 1 of the absorbing preset instantiates the
membership characterization. -/
theorem absorbingStates_spec_witness :
    1 < absorbingP.length ∧
      (1 ∈ absorbingStates absorbingP ↔
        ∀ j < absorbingP.length,
          |(absorbingP.getD 1 []).getD j 0 - (if 1 = j then 1 else 0)| ≤
            1/1000000000000) :=
  ⟨by simp [absorbingP],
    absorbingStates_spec.1 absorbingP 1 (by simp [absorbingP])⟩

/-- C7.  On a row with positive sum, `normalizeRow` divides each entry
by the sum, so the result sums to 1 and preserves the ratio between any
two entries (stated cross-multiplied); on a row with sum ≤ 0 it returns
the all-zero row of the same length. -/
theorem normalizeRow_spec (row : List ℚ) :
    (0 < row.sum →
        normalizeRow row = row.map (fun x => x / row.sum) ∧
          (normalizeRow row).sum = 1 ∧
          ∀ i j : ℕ,
            (normalizeRow row).getD i 0 * row.getD j 0 =
              (normalizeRow row).getD j 0 * row.getD i 0) ∧
      (row.sum ≤ 0 → normalizeRow row = List.replicate row.length 0) := by
  constructor
  · intro h
    refine ⟨normalizeRow_of_pos row h, ?_, ?_⟩
    · rw [normalizeRow_of_pos row h, sum_map_div, div_self (ne_of_gt h)]
    · intro i j
      rw [normalizeRow_of_pos row h, getD_map_div, getD_map_div]
      ring
  · intro h
    simp only [normalizeRow]
    rw [if_pos h]
    simp [List.map_const']

/-- C7 witness: a positive-sum row and the all-zero row instantiate the
two branches. -/
theorem normalizeRow_spec_witness :
    (0 < ([1, 3] : List ℚ).sum ∧ (normalizeRow [1, 3]).sum = 1) ∧
      (([0, 0] : List ℚ).sum ≤ 0 ∧
        normalizeRow [0, 0] =
          List.replicate ([0, 0] : List ℚ).length 0) :=
  ⟨⟨by norm_num, ((normalizeRow_spec [1, 3]).1 (by norm_num)).2.1⟩,
    ⟨by norm_num, (normalizeRow_spec [0, 0]).2 (by norm_num)⟩⟩

/-- The fuel loop of the power method, characterized through
`Function.iterate`: either some iteration count `k` below the fuel is
the first to meet the convergence test and the loop returns the
`(k+1)`-st iterate, or no iteration converges and the loop returns the
final (fuel-th) iterate. -/
lemma stationaryLoop_iterate (P : List (List ℚ)) (tol : ℚ) :
    ∀ (fuel : ℕ) (start : List ℚ),
      (∃ k < fuel,
          (∀ m < k, ¬ l1 ((powerStep P)^[m + 1] start)
              ((powerStep P)^[m] start) < tol) ∧
            l1 ((powerStep P)^[k + 1] start) ((powerStep P)^[k] start) <
              tol ∧
            stationaryLoop P tol fuel start = (powerStep P)^[k + 1] start) ∨
        ((∀ k < fuel, ¬ l1 ((powerStep P)^[k + 1] start)
            ((powerStep P)^[k] start) < tol) ∧
          stationaryLoop P tol fuel start = (powerStep P)^[fuel] start) := by
  intro fuel
  induction fuel with
  | zero =>
    intro start
    exact Or.inr ⟨fun k hk => absurd hk (Nat.not_lt_zero k), rfl⟩
  | succ fuel ih =>
    intro start
    by_cases h : l1 (multRowVecMat start P) start < tol
    · left
      refine ⟨0, Nat.succ_pos fuel,
        fun m hm => absurd hm (Nat.not_lt_zero m), ?_, ?_⟩
      · simpa [powerStep] using h
      · show (if l1 (multRowVecMat start P) start < tol then
            multRowVecMat start P
          else stationaryLoop P tol fuel (multRowVecMat start P)) =
            (powerStep P)^[0 + 1] start
        rw [if_pos h]
        simp [powerStep]
    · have hloop : stationaryLoop P tol (fuel + 1) start =
          stationaryLoop P tol fuel (powerStep P start) := by
        show (if l1 (multRowVecMat start P) start < tol then
            multRowVecMat start P
          else stationaryLoop P tol fuel (multRowVecMat start P)) =
            stationaryLoop P tol fuel (powerStep P start)
        rw [if_neg h]
        try rfl
      rcases ih (powerStep P start) with
        ⟨k, hk, hmin, hconv, heq⟩ | ⟨hall, heq⟩
      · left
        refine ⟨k + 1, Nat.succ_lt_succ hk, ?_, ?_, ?_⟩
        · intro m hm
          cases m with
          | zero => simpa [powerStep] using h
          | succ m2 =>
            have hm2 := hmin m2 (Nat.lt_of_succ_lt_succ hm)
            simp only [Function.iterate_succ_apply] at hm2 ⊢
            exact hm2
        · have hc := hconv
          simp only [Function.iterate_succ_apply] at hc ⊢
          exact hc
        · rw [hloop, heq]
          simp only [Function.iterate_succ_apply]
      · right
        refine ⟨?_, ?_⟩
        · intro k hk
          cases k with
          | zero => simpa [powerStep] using h
          | succ k2 =>
            have hk2 := hall k2 (Nat.lt_of_succ_lt_succ hk)
            simp only [Function.iterate_succ_apply] at hk2 ⊢
            exact hk2
        · rw [hloop, heq]
          simp only [Function.iterate_succ_apply]

/-- C4.  `stationaryDistribution` runs power iteration from the uniform
vector: it returns the `(k+1)`-st iterate for the first `k < maxIter`
whose step moves less than `tol` in l1-distance, and when no iteration
below `maxIter` converges it returns the `maxIter`-th iterate — a total
function, so no error is raised. -/
theorem stationaryDistribution_power_iteration (P : List (List ℚ))
    (tol : ℚ) (maxIter : ℕ) :
    (∃ k < maxIter,
        (∀ m < k, ¬ l1 ((powerStep P)^[m + 1] (uniformVec P.length))
            ((powerStep P)^[m] (uniformVec P.length)) < tol) ∧
          l1 ((powerStep P)^[k + 1] (uniformVec P.length))
              ((powerStep P)^[k] (uniformVec P.length)) < tol ∧
          stationaryDistribution P tol maxIter =
            (powerStep P)^[k + 1] (uniformVec P.length)) ∨
      ((∀ k < maxIter, ¬ l1 ((powerStep P)^[k + 1] (uniformVec P.length))
          ((powerStep P)^[k] (uniformVec P.length)) < tol) ∧
        stationaryDistribution P tol maxIter =
          (powerStep P)^[maxIter] (uniformVec P.length)) :=
  stationaryLoop_iterate P tol maxIter (uniformVec P.length)

/-- C8.  Add/remove preserve the lock-step shape invariant (labels,
initial vector, row count and every row length all equal one `n ≥ 1`);
adding appends a column of 0s, a standard-basis self-loop row and a 0 on
`p0`; removing is refused at `n = 1`, leaving everything unchanged. -/
theorem add_remove_shape_spec (c : Config) (hinv : shapeInvariant c) :
    shapeInvariant (addState c) ∧ shapeInvariant (removeState c) ∧
      (addState c).labels.length = c.labels.length + 1 ∧
      (addState c).P = c.P.map (fun row => row ++ [0]) ++
        [List.replicate c.labels.length 0 ++ [1]] ∧
      (addState c).p0 = c.p0 ++ [0] ∧
      (c.labels.length = 1 → removeState c = c) := by
  obtain ⟨hP, hrows, hp0, hn⟩ := hinv
  have hPeq := addState_P_eq c hP
  have hlabels : (addState c).labels.length = c.labels.length + 1 := by
    simp [addState]
  refine ⟨⟨?_, ?_, ?_, ?_⟩, ?_, hlabels, hPeq, rfl, ?_⟩
  · rw [hPeq, hlabels]
    simp [hP]
  · rw [hPeq, hlabels]
    intro row hrow
    rcases List.mem_append.mp hrow with hmem | hmem
    · obtain ⟨r, hr, rfl⟩ := List.mem_map.mp hmem
      simp [hrows r hr]
    · simp only [List.mem_singleton] at hmem
      subst hmem
      simp
  · rw [hlabels]
    simp [addState, hp0]
  · rw [hlabels]
    exact Nat.le_add_left 1 c.labels.length
  · by_cases hle : c.labels.length ≤ 1
    · have : removeState c = c := by
        simp only [removeState]
        rw [if_pos hle]
      rw [this]
      exact ⟨hP, hrows, hp0, hn⟩
    · have h2 : 2 ≤ c.labels.length := Nat.lt_of_not_le hle
      have hrm : removeState c =
          ⟨c.labels.dropLast,
            (c.P.dropLast).map (fun row => row.dropLast),
            c.p0.dropLast⟩ := by
        simp only [removeState]
        rw [if_neg hle]
      rw [hrm]
      refine ⟨?_, ?_, ?_, ?_⟩
      · simp [hP]
      · intro row hrow
        obtain ⟨r, hr, rfl⟩ := List.mem_map.mp hrow
        have hrc : r ∈ c.P := List.dropLast_subset c.P hr
        simp [hrows r hrc]
      · simp [hp0]
      · simp only [List.length_dropLast]
        omega
  · intro h1
    simp only [removeState]
    rw [if_pos (le_of_eq h1)]

/-- C8 witness: the weather configuration instantiates the invariant
preservation and the append shape of `addState`. -/
theorem add_remove_shape_spec_witness :
    shapeInvariant ⟨["Sunny", "Rainy"], weatherP, [1, 0]⟩ ∧
      shapeInvariant (addState ⟨["Sunny", "Rainy"], weatherP, [1, 0]⟩) ∧
      (addState ⟨["Sunny", "Rainy"], weatherP, [1, 0]⟩).p0 =
        [1, 0] ++ [0] := by
  refine ⟨shapeInvariant_weatherConfig, ?_, ?_⟩
  · exact (add_remove_shape_spec _ shapeInvariant_weatherConfig).1
  · exact (add_remove_shape_spec _ shapeInvariant_weatherConfig).2.2.2.2.1

/-- C10.  Adding a state to a configuration in lock-step shape with a
row-stochastic matrix yields a matrix that is still row-stochastic. -/
theorem addState_preserves_rowStochastic (c : Config)
    (hinv : shapeInvariant c) (hP : isRowStochastic c.P = true) :
    isRowStochastic (addState c).P = true := by
  obtain ⟨hPl, hrows, hp0, hn⟩ := hinv
  rw [addState_P_eq c hPl]
  rw [isRowStochastic_iff] at hP ⊢
  intro row hrow
  rcases List.mem_append.mp hrow with hmem | hmem
  · obtain ⟨r, hr, rfl⟩ := List.mem_map.mp hmem
    obtain ⟨hent, hsum⟩ := hP r hr
    constructor
    · intro x hx
      rcases List.mem_append.mp hx with hx | hx
      · exact hent x hx
      · simp only [List.mem_singleton] at hx
        subst hx
        norm_num
    · rw [List.sum_append]
      simpa using hsum
  · simp only [List.mem_singleton] at hmem
    subst hmem
    constructor
    · intro x hx
      rcases List.mem_append.mp hx with hx | hx
      · rw [List.eq_of_mem_replicate hx]
        norm_num
      · simp only [List.mem_singleton] at hx
        subst hx
        norm_num
    · rw [List.sum_append]
      simp

/-- C10 witness: growing the weather configuration keeps its matrix
row-stochastic. -/
theorem addState_preserves_rowStochastic_witness :
    shapeInvariant ⟨["Sunny", "Rainy"], weatherP, [1, 0]⟩ ∧
      isRowStochastic weatherP = true ∧
      isRowStochastic
        (addState ⟨["Sunny", "Rainy"], weatherP, [1, 0]⟩).P = true :=
  ⟨shapeInvariant_weatherConfig, isRowStochastic_weatherP,
    addState_preserves_rowStochastic _ shapeInvariant_weatherConfig
      isRowStochastic_weatherP⟩

end MarkovChain
